import Mathlib

/-!
Verification development for the Masterblog API backend
(`src/backend/backend_app.py`): a shallow embedding of the post-collection
CRUD + query logic (list/sort, create, update, delete, search) together
with theorems about it.

Modelling conventions:
* A JSON post object is the structure `Post`; the JSON request body of
  create/update is `RawPost` (absent keys are `none`).  String values are
  Lean `String`s; all character-level work happens on `List Char`.
* Python `str.strip()` / `str.lower()` / substring `in` are modelled on
  ASCII (`pyStrip`, `lowerList`, `containsSub`); the service stores plain
  text fields, so the exotic-Unicode corners of the Python versions are
  out of scope.
* `datetime.strptime(s, "%Y-%m-%d")` is modelled by `strptimeYmd`,
  following CPython: `%Y` matches exactly four digits, `%m`/`%d` match
  one or two digits bounded by 12/31, the whole string must be consumed,
  and the resulting triple must be a real calendar date with year ≥ 1.
* `sorted(posts, key=..., reverse=...)` is a stable sort; any two stable
  sorts of the same list under the same total preorder agree, so it is
  embedded as `List.insertionSort` (`pySorted`).
* Each route returns `Except String ...`: `.error` collects every
  non-2xx outcome (400/404 JSON errors and the uncaught `ValueError` of
  the date-sort branch).  `save_data` failures (`OSError`) are an
  environment fault, not collection logic, and are not modelled: the
  `postsAfter*` wrappers give the persisted collection after a request,
  which changes exactly when the route reaches its `save_data` call.
-/

deriving instance DecidableEq for Except

/-- Python whitespace characters stripped by `str.strip()` (ASCII range). -/
def isPySpace (c : Char) : Bool :=
  c = ' ' ∨ c = '\t' ∨ c = '\n' ∨ c = '\r' ∨ c = '\x0b' ∨ c = '\x0c'

/-- Python `s.strip()`: remove leading and trailing whitespace. -/
def pyStrip (s : String) : String :=
  List.asString (((s.toList.dropWhile isPySpace).reverse.dropWhile isPySpace).reverse)

/-- Python `s.lower()` as a character list (ASCII case folding). -/
def lowerList (s : String) : List Char :=
  s.toList.map Char.toLower

/-- Python substring test `needle in hay` on character lists. -/
def containsSub (needle : List Char) : List Char → Bool
  | [] => needle.isEmpty
  | c :: rest => List.isPrefixOf needle (c :: rest) || containsSub needle rest

/-- Case-insensitive substring containment, `needle.lower() in hay.lower()`. -/
def containsCI (needle hay : String) : Bool :=
  containsSub (lowerList needle) (lowerList hay)

/-- Python `<=` on strings: lexicographic comparison by code point. -/
def lexLe : List Char → List Char → Bool
  | [], _ => true
  | _ :: _, [] => false
  | a :: as, b :: bs => a < b || (a == b && lexLe as bs)

/-- Split a character list at `-` separators (the `"%Y-%m-%d"` layout). -/
def splitDash : List Char → List Char → List (List Char)
  | [], acc => [acc.reverse]
  | c :: rest, acc =>
    if c = '-' then acc.reverse :: splitDash rest [] else splitDash rest (c :: acc)

/-- Decimal value of a digit token (Python `int` on the matched group). -/
def natOfDigits (cs : List Char) : Nat :=
  cs.foldl (fun n c => 10 * n + (c.toNat - 48)) 0

/-- A token of `lo`–`hi` decimal digits, as in CPython strptime regexes. -/
def digitTok (lo hi : Nat) (t : List Char) : Bool :=
  lo ≤ t.length ∧ t.length ≤ hi ∧ t.all Char.isDigit

/-- Gregorian month length, as enforced by `datetime`. -/
def daysInMonth (y m : Nat) : Nat :=
  if m = 2 then (if (y % 4 = 0 ∧ y % 100 ≠ 0) ∨ y % 400 = 0 then 29 else 28)
  else if m = 4 ∨ m = 6 ∨ m = 9 ∨ m = 11 then 30 else 31

/-- A real calendar date accepted by `datetime` (year ≥ 1). -/
def ymdValid (y m d : Nat) : Bool :=
  1 ≤ y ∧ 1 ≤ m ∧ m ≤ 12 ∧ 1 ≤ d ∧ d ≤ daysInMonth y m

/-- `datetime.strptime(s, "%Y-%m-%d")`: `some (y, m, d)` on success,
`none` when a `ValueError` is raised.  CPython matches `%Y` as exactly
four digits and `%m` / `%d` as one or two digits with values in 1..12 /
1..31, requires the whole string to match, then builds a `datetime`,
which checks the day against the month length. -/
def strptimeYmd (s : String) : Option (Nat × Nat × Nat) :=
  match splitDash s.toList [] with
  | [ys, ms, ds] =>
    if digitTok 4 4 ys && digitTok 1 2 ms && digitTok 1 2 ds then
      let y := natOfDigits ys
      let m := natOfDigits ms
      let d := natOfDigits ds
      if ymdValid y m d then some (y, m, d) else none
    else none
  | _ => none

/-- A real calendar date written in strict `YYYY-MM-DD` form (four-digit
year, two-digit month, two-digit day), the format named by the spec. -/
def isStrictYMD (s : String) : Bool :=
  match splitDash s.toList [] with
  | [ys, ms, ds] =>
    digitTok 4 4 ys && digitTok 2 2 ms && digitTok 2 2 ds &&
      ymdValid (natOfDigits ys) (natOfDigits ms) (natOfDigits ds)
  | _ => false

/-- A stored blog post: one JSON object of `storage.json`. -/
structure Post where
  id : Int
  title : String
  content : String
  author : String
  date : String
deriving DecidableEq

/-- A JSON request body for create/update: each key may be absent. -/
structure RawPost where
  title : Option String
  content : Option String
  author : Option String
  date : Option String
deriving DecidableEq

/-- Query parameters of `/api/posts/search`; `none` is an absent parameter. -/
structure Filters where
  title : Option String
  content : Option String
  author : Option String
  date : Option String
deriving DecidableEq

/-- Python truthiness of `request.args.get(...)` / dict values used in the
source: `None` and the empty string are falsy. -/
def truthy : Option String → Bool
  | none => false
  | some s => !(s.toList.isEmpty)

/-- Sort key of the string branch of `get_posts`: `post[sort].lower()`. -/
def sortKeyStr (field : String) (p : Post) : List Char :=
  lowerList
    (if field = "title" then p.title
     else if field = "content" then p.content
     else if field = "author" then p.author
     else p.date)

/-- Sort key of the date branch: the parsed `datetime`, encoded so that
`Nat` order coincides with `datetime` order (month ≤ 12, day ≤ 31). -/
def dateKey (p : Post) : Nat :=
  match strptimeYmd p.date with
  | some (y, m, d) => y * 10000 + m * 100 + d
  | none => 0

/-- Python `sorted(posts, key=key, reverse=reverse)`: a stable sort under
the total preorder induced by the key; embedded as insertion sort, which
is stable for exactly that preorder. -/
def pySorted {κ : Type} (le : κ → κ → Bool) (key : Post → κ) (rev : Bool)
    (posts : List Post) : List Post :=
  if rev then List.insertionSort (fun a b => le (key b) (key a) = true) posts
  else List.insertionSort (fun a b => le (key a) (key b) = true) posts

/-- `GET /api/posts` (`get_posts`, lines 71–106): optional `sort` and
`direction` query parameters; `direction` defaults to `"asc"`.  The date
branch parses every stored date (CPython computes all sort keys before
comparing), raising `ValueError` if one is malformed. -/
def get_posts (posts : List Post) (sort : Option String)
    (direction : Option String) : Except String (List Post) :=
  let dir := direction.getD "asc"
  match sort with
  | none => .ok posts
  | some s =>
    if s ∉ (["title", "content", "author", "date"] : List String) then
      .error "Invalid sort request."
    else if dir ∉ (["asc", "desc"] : List String) then
      .error "Invalid direction."
    else
      let rev := dir == "desc"
      if s = "date" then
        if posts.all (fun p => (strptimeYmd p.date).isSome) then
          .ok (pySorted (fun a b : Nat => a ≤ b) dateKey rev posts)
        else .error "ValueError: time data does not match format"
      else .ok (pySorted lexLe (sortKeyStr s) rev posts)

/-- `POST /api/posts` (`add_post`, lines 109–155).  `body = none` stands
for a falsy `request.get_json()` result (`None` or `{}`).  Fields are
read with `.get(key, "")`, stripped, checked non-empty in order, the date
validated, then the post is appended with id `max(ids, default=0) + 1`.
Returns the new collection and the created post. -/
def add_post (posts : List Post) (body : Option RawPost) :
    Except String (List Post × Post) :=
  match body with
  | none => .error "JSON body required"
  | some r =>
    let title := pyStrip (r.title.getD "")
    let content := pyStrip (r.content.getD "")
    let author := pyStrip (r.author.getD "")
    let date := pyStrip (r.date.getD "")
    if title = "" then .error "Valid title is required"
    else if content = "" then .error "Valid content is required"
    else if author = "" then .error "Valid author is required"
    else if date = "" then .error "Valid date is required"
    else if (strptimeYmd date).isSome then
      let new_id := ((posts.map fun p => p.id).max?.getD 0) + 1
      let newPost : Post := ⟨new_id, title, content, author, date⟩
      .ok (posts ++ [newPost], newPost)
    else .error "Date must be YYYY-MM-DD"

/-- Remove the first post with the given id, as the loop of `delete_post`
does via `posts.remove(post)`; `none` when no post matches. -/
def removeFirstById : List Post → Int → Option (List Post)
  | [], _ => none
  | p :: ps, i =>
    if p.id = i then some ps else (removeFirstById ps i).map (fun l => p :: l)

/-- The confirmation message of `delete_post`. -/
def deleteMsg (i : Int) : String :=
  "Post " ++ toString i ++ " has been deleted."

/-- `DELETE /api/posts/<id>` (`delete_post`, lines 158–171): remove the
first post with the given id and confirm, or 404. -/
def delete_post (posts : List Post) (post_id : Int) :
    Except String (List Post × String) :=
  match removeFirstById posts post_id with
  | some ps => .ok (ps, deleteMsg post_id)
  | none => .error "Post Not Found"

/-- The body of the `update_post` loop: find the first post with the given
id; copy a supplied `title` / `content` / `author` onto it verbatim; a
supplied `date` is stripped and must parse, else the request fails with
400 before `save_data` runs. -/
def updateLoop : List Post → Int → RawPost → Except String (List Post × Post)
  | [], _, _ => .error "Post Not Found"
  | p :: ps, post_id, nd =>
    if p.id = post_id then
      let p1 : Post :=
        { p with
          title := nd.title.getD p.title
          content := nd.content.getD p.content
          author := nd.author.getD p.author }
      match nd.date with
      | some d =>
        let new_date := pyStrip d
        if (strptimeYmd new_date).isSome then
          .ok (({ p1 with date := new_date } :: ps), { p1 with date := new_date })
        else .error "Date must be YYYY-MM-DD"
      | none => .ok ((p1 :: ps), p1)
    else
      match updateLoop ps post_id nd with
      | .ok (ps2, q) => .ok ((p :: ps2), q)
      | .error e => .error e

/-- `PUT /api/posts/<id>` (`update_post`, lines 174–207).  A `None` JSON
body is replaced by `{}` (no field present). -/
def update_post (posts : List Post) (post_id : Int) (body : Option RawPost) :
    Except String (List Post × Post) :=
  let new_data := body.getD ⟨none, none, none, none⟩
  updateLoop posts post_id new_data

/-- The per-post `conditions` list of `search_posts`: one boolean for each
truthy query parameter, in source order. -/
def postConditions (f : Filters) (p : Post) : List Bool :=
  (if truthy f.title then [containsCI (f.title.getD "") p.title] else []) ++
  (if truthy f.content then [containsCI (f.content.getD "") p.content] else []) ++
  (if truthy f.author then [containsCI (f.author.getD "") p.author] else []) ++
  (if truthy f.date then [f.date.getD "" == p.date] else [])

/-- `GET /api/posts/search` (`search_posts`, lines 210–251): if no query
parameter is truthy, return `[]`; otherwise keep the posts whose
`conditions` list is non-empty and all true, in stored order. -/
def search_posts (posts : List Post) (f : Filters) : List Post :=
  if !(truthy f.title || truthy f.content || truthy f.author || truthy f.date) then
    []
  else
    posts.filter fun p =>
      let conditions := postConditions f p
      !conditions.isEmpty && conditions.all id

/-- The spec-side reading of the search contract: a post matches when it
satisfies every supplied (non-empty) filter — case-insensitive substring
containment for `title`/`content`/`author`, exact equality for `date`. -/
def satisfiesAllFilters (f : Filters) (p : Post) : Bool :=
  (!truthy f.title || containsCI (f.title.getD "") p.title) &&
  (!truthy f.content || containsCI (f.content.getD "") p.content) &&
  (!truthy f.author || containsCI (f.author.getD "") p.author) &&
  (!truthy f.date || (f.date.getD "" == p.date))

/-- Replace a filter supplied as the empty string by an absent one. -/
def dropEmpty (o : Option String) : Option String :=
  if truthy o then o else none

/-- `dropEmpty` applied to every filter field. -/
def dropEmptyFilters (f : Filters) : Filters :=
  ⟨dropEmpty f.title, dropEmpty f.content, dropEmpty f.author, dropEmpty f.date⟩

/-- The persisted collection after a `POST /api/posts` request:
`save_data` runs only on the success path. -/
def postsAfterAdd (posts : List Post) (body : Option RawPost) : List Post :=
  match add_post posts body with
  | .ok (ps, _) => ps
  | .error _ => posts

/-- The persisted collection after a `PUT /api/posts/<id>` request. -/
def postsAfterUpdate (posts : List Post) (post_id : Int)
    (body : Option RawPost) : List Post :=
  match update_post posts post_id body with
  | .ok (ps, _) => ps
  | .error _ => posts

/-- The persisted collection after a `DELETE /api/posts/<id>` request. -/
def postsAfterDelete (posts : List Post) (post_id : Int) : List Post :=
  match delete_post posts post_id with
  | .ok (ps, _) => ps
  | .error _ => posts

/-- The `update_post` field copy for `title` / `content` / `author`:
supplied values land on the post verbatim, absent ones are kept. -/
def updStr (p : Post) (nd : RawPost) : Post :=
  { p with
    title := nd.title.getD p.title
    content := nd.content.getD p.content
    author := nd.author.getD p.author }

/-- The post a valid create request is expected to produce: the trimmed
input fields under id `max(existing ids, default 0) + 1`. -/
def madePost (posts : List Post) (r : RawPost) : Post :=
  ⟨((posts.map fun p => p.id).max?.getD 0) + 1,
    pyStrip (r.title.getD ""), pyStrip (r.content.getD ""),
    pyStrip (r.author.getD ""), pyStrip (r.date.getD "")⟩

/-! ### Order facts about `lexLe` (Python string comparison) -/

theorem lexLe_refl : ∀ l : List Char, lexLe l l = true
  | [] => rfl
  | a :: as => by simp [lexLe, lexLe_refl as]

theorem lexLe_total : ∀ a b : List Char, lexLe a b = true ∨ lexLe b a = true
  | [], _ => Or.inl rfl
  | _ :: _, [] => Or.inr rfl
  | x :: xs, y :: ys => by
    rcases lt_trichotomy x y with h | h | h
    · exact Or.inl (by simp [lexLe, h])
    · subst h
      rcases lexLe_total xs ys with h2 | h2
      · exact Or.inl (by simp [lexLe, h2])
      · exact Or.inr (by simp [lexLe, h2])
    · exact Or.inr (by simp [lexLe, h])

theorem lexLe_trans : ∀ a b c : List Char,
    lexLe a b = true → lexLe b c = true → lexLe a c = true
  | [], _, _, _, _ => rfl
  | x :: xs, [], _, h1, _ => by simp [lexLe] at h1
  | x :: xs, y :: ys, [], _, h2 => by simp [lexLe] at h2
  | x :: xs, y :: ys, z :: zs, h1, h2 => by
    simp only [lexLe, Bool.or_eq_true, Bool.and_eq_true, beq_iff_eq,
      decide_eq_true_eq] at h1 h2 ⊢
    rcases h1 with h1 | ⟨h1e, h1t⟩
    · rcases h2 with h2 | ⟨h2e, _⟩
      · exact Or.inl (lt_trans h1 h2)
      · exact Or.inl (h2e ▸ h1)
    · rcases h2 with h2 | ⟨h2e, h2t⟩
      · exact Or.inl (h1e ▸ h2)
      · exact Or.inr ⟨h1e.trans h2e, lexLe_trans xs ys zs h1t h2t⟩

theorem lexLe_antisymm : ∀ {a b : List Char},
    lexLe a b = true → lexLe b a = true → a = b
  | [], [], _, _ => rfl
  | [], _ :: _, _, h2 => by simp [lexLe] at h2
  | _ :: _, [], h1, _ => by simp [lexLe] at h1
  | x :: xs, y :: ys, h1, h2 => by
    simp only [lexLe, Bool.or_eq_true, Bool.and_eq_true, beq_iff_eq,
      decide_eq_true_eq] at h1 h2
    rcases h1 with h1 | ⟨h1e, h1t⟩
    · rcases h2 with h2 | ⟨h2e, _⟩
      · exact absurd h2 (lt_asymm h1)
      · exact absurd (h2e ▸ h1) (lt_irrefl y)
    · rcases h2 with h2 | ⟨_, h2t⟩
      · exact absurd (h1e ▸ h2) (lt_irrefl y)
      · rw [h1e, lexLe_antisymm h1t h2t]

/-! ### Facts about `List.max?` over integer id lists -/

theorem le_foldl_max : ∀ (l : List Int) (a : Int), a ≤ l.foldl max a
  | [], _ => le_refl _
  | b :: l, a => le_trans (le_max_left a b) (le_foldl_max l (max a b))

theorem mem_le_foldl_max : ∀ (l : List Int) (a x : Int), x ∈ l → x ≤ l.foldl max a
  | [], _, _, hx => absurd hx (List.not_mem_nil _)
  | b :: l, a, x, hx => by
    rcases List.mem_cons.mp hx with rfl | hx
    · exact le_trans (le_max_right a x) (le_foldl_max l (max a x))
    · exact mem_le_foldl_max l (max a b) x hx

theorem mem_le_max?_getD (l : List Int) (x : Int) (hx : x ∈ l) :
    x ≤ l.max?.getD 0 := by
  cases l with
  | nil => exact absurd hx (List.not_mem_nil _)
  | cons a as =>
    rcases List.mem_cons.mp hx with rfl | hx
    · exact le_foldl_max as x
    · exact mem_le_foldl_max as a x hx

/-! ### Stability of `List.insertionSort` for key-induced preorders -/

theorem filter_orderedInsert {κ : Type} [DecidableEq κ]
    (r : Post → Post → Prop) [DecidableRel r] (k : Post → κ)
    (hk : ∀ x y, k x = k y → r x y) (a : Post) (s : κ) :
    ∀ L : List Post,
      (List.orderedInsert r a L).filter (fun p => decide (k p = s)) =
        if k a = s then a :: L.filter (fun p => decide (k p = s))
        else L.filter (fun p => decide (k p = s))
  | [] => by by_cases h : k a = s <;> simp [List.orderedInsert, h]
  | b :: L => by
    by_cases hr : r a b
    · by_cases h : k a = s <;>
        simp [List.orderedInsert, hr, h, List.filter_cons]
    · have hab : k b ≠ k a := fun hEq => hr (hk a b hEq.symm)
      by_cases hb : k b = s
      · by_cases ha : k a = s
        · exact absurd (hb.trans ha.symm) hab
        · simp [List.orderedInsert, hr, List.filter_cons, hb, ha,
            filter_orderedInsert r k hk a s L]
      · by_cases ha : k a = s <;>
          simp [List.orderedInsert, hr, List.filter_cons, hb, ha,
            filter_orderedInsert r k hk a s L]

theorem filter_insertionSort {κ : Type} [DecidableEq κ]
    (r : Post → Post → Prop) [DecidableRel r] (k : Post → κ)
    (hk : ∀ x y, k x = k y → r x y) (s : κ) :
    ∀ l : List Post,
      (List.insertionSort r l).filter (fun p => decide (k p = s)) =
        l.filter (fun p => decide (k p = s))
  | [] => rfl
  | a :: l => by
    by_cases h : k a = s <;>
      simp [List.insertionSort, filter_orderedInsert r k hk a s,
        filter_insertionSort r k hk s l, h, List.filter_cons]

/-! ### The string-sort branch of `get_posts` -/

theorem sorted_pySorted_asc (k : Post → List Char) (l : List Post) :
    List.Sorted (fun p q => lexLe (k p) (k q) = true) (pySorted lexLe k false l) := by
  haveI : IsTotal Post (fun p q => lexLe (k p) (k q) = true) :=
    ⟨fun a b => lexLe_total (k a) (k b)⟩
  haveI : IsTrans Post (fun p q => lexLe (k p) (k q) = true) :=
    ⟨fun a b c => lexLe_trans (k a) (k b) (k c)⟩
  simpa [pySorted] using
    List.sorted_insertionSort (fun p q => lexLe (k p) (k q) = true) l

theorem sorted_pySorted_desc (k : Post → List Char) (l : List Post) :
    List.Sorted (fun p q => lexLe (k q) (k p) = true) (pySorted lexLe k true l) := by
  haveI : IsTotal Post (fun p q => lexLe (k q) (k p) = true) :=
    ⟨fun a b => lexLe_total (k b) (k a)⟩
  haveI : IsTrans Post (fun p q => lexLe (k q) (k p) = true) :=
    ⟨fun a b c h1 h2 => lexLe_trans (k c) (k b) (k a) h2 h1⟩
  simpa [pySorted] using
    List.sorted_insertionSort (fun p q => lexLe (k q) (k p) = true) l

theorem stable_pySorted_asc (k : Post → List Char) (s : List Char) (l : List Post) :
    (pySorted lexLe k false l).filter (fun p => decide (k p = s)) =
      l.filter (fun p => decide (k p = s)) := by
  have hk : ∀ x y : Post, k x = k y → lexLe (k x) (k y) = true := fun x y h =>
    h ▸ lexLe_refl (k x)
  simpa [pySorted] using
    filter_insertionSort (fun p q => lexLe (k p) (k q) = true) k hk s l

theorem stable_pySorted_desc (k : Post → List Char) (s : List Char) (l : List Post) :
    (pySorted lexLe k true l).filter (fun p => decide (k p = s)) =
      l.filter (fun p => decide (k p = s)) := by
  have hk : ∀ x y : Post, k x = k y → lexLe (k y) (k x) = true := fun x y h =>
    h ▸ lexLe_refl (k x)
  simpa [pySorted] using
    filter_insertionSort (fun p q => lexLe (k q) (k p) = true) k hk s l

theorem perm_pySorted (k : Post → List Char) (rev : Bool) (l : List Post) :
    (pySorted lexLe k rev l).Perm l := by
  cases rev <;> simpa [pySorted] using List.perm_insertionSort _ l

theorem pySorted_desc_map_eq_reverse (k : Post → List Char) (l : List Post) :
    (pySorted lexLe k true l).map k = ((pySorted lexLe k false l).map k).reverse := by
  haveI : IsAntisymm (List Char) (fun x y => lexLe x y = true) :=
    ⟨fun a b => lexLe_antisymm⟩
  have hA : List.Sorted (fun x y : List Char => lexLe x y = true)
      ((pySorted lexLe k false l).map k) :=
    List.Pairwise.map k (fun a b h => h) (sorted_pySorted_asc k l)
  have hD : List.Sorted (fun x y : List Char => lexLe y x = true)
      ((pySorted lexLe k true l).map k) :=
    List.Pairwise.map k (fun a b h => h) (sorted_pySorted_desc k l)
  have hDrev : List.Sorted (fun x y : List Char => lexLe x y = true)
      (((pySorted lexLe k true l).map k).reverse) := by
    rw [List.Sorted, List.pairwise_reverse]
    exact hD
  have hperm : (((pySorted lexLe k true l).map k).reverse).Perm
      ((pySorted lexLe k false l).map k) :=
    ((List.reverse_perm _).trans ((perm_pySorted k true l).map k)).trans
      (((perm_pySorted k false l).map k).symm)
  have heq := List.eq_of_perm_of_sorted hperm hDrev hA
  rw [← heq, List.reverse_reverse]

/-! ### Helper lemmas about `update_post`, `delete_post` and date parsing -/

theorem isStrictYMD_strptime {s : String} (h : isStrictYMD s = true) :
    (strptimeYmd s).isSome = true := by
  unfold isStrictYMD at h
  unfold strptimeYmd
  cases hs : splitDash s.toList [] with
  | nil => rw [hs] at h; simp at h
  | cons ys rest =>
    cases rest with
    | nil => rw [hs] at h; simp at h
    | cons ms rest2 =>
      cases rest2 with
      | nil => rw [hs] at h; simp at h
      | cons ds rest3 =>
        cases rest3 with
        | cons u v => rw [hs] at h; simp at h
        | nil =>
          rw [hs] at h
          simp only [Bool.and_eq_true, digitTok, decide_eq_true_eq] at h
          obtain ⟨⟨⟨hy, hm⟩, hd⟩, hv⟩ := h
          have hm2 : digitTok 1 2 ms = true := by
            simp only [digitTok, decide_eq_true_eq]
            refine ⟨by omega, hm.2.1, hm.2.2⟩
          have hd2 : digitTok 1 2 ds = true := by
            simp only [digitTok, decide_eq_true_eq]
            refine ⟨by omega, hd.2.1, hd.2.2⟩
          have hy2 : digitTok 4 4 ys = true := by
            simp only [digitTok, decide_eq_true_eq]
            exact hy
          simp [hy2, hm2, hd2, hv]

theorem isStrictYMD_ne_empty {s : String} (h : isStrictYMD s = true) : s ≠ "" := by
  rintro rfl
  revert h
  decide

theorem updateLoop_ids : ∀ (posts : List Post) (i : Int) (nd : RawPost)
    (ps : List Post) (q : Post), updateLoop posts i nd = .ok (ps, q) →
    ps.map (fun p => p.id) = posts.map (fun p => p.id) := by
  intro posts
  induction posts with
  | nil => intro i nd ps q h; simp [updateLoop] at h
  | cons p rest ih =>
    intro i nd ps q h
    by_cases hid : p.id = i
    · simp only [updateLoop, if_pos hid] at h
      cases hd : nd.date with
      | none =>
        simp only [hd] at h
        simp only [Except.ok.injEq, Prod.mk.injEq] at h
        obtain ⟨h1, h2⟩ := h
        subst h1
        simp
      | some d =>
        simp only [hd] at h
        by_cases hp : (strptimeYmd (pyStrip d)).isSome = true
        · simp only [if_pos hp, Except.ok.injEq, Prod.mk.injEq] at h
          obtain ⟨h1, h2⟩ := h
          subst h1
          simp
        · simp only [if_neg hp] at h
          simp at h
    · simp only [updateLoop, if_neg hid] at h
      cases hrec : updateLoop rest i nd with
      | ok pr =>
        simp only [hrec, Except.ok.injEq] at h
        have h2 : p :: pr.1 = ps ∧ pr.2 = q := by simpa using h
        obtain ⟨h3, h4⟩ := h2
        subst h3
        simp [ih i nd pr.1 pr.2 (by rw [hrec])]
      | error e =>
        simp only [hrec] at h
        simp at h

theorem updateLoop_invalid_date : ∀ (posts : List Post) (i : Int) (nd : RawPost)
    (d : String), (∃ p ∈ posts, p.id = i) → nd.date = some d →
    (strptimeYmd (pyStrip d)).isSome = false →
    updateLoop posts i nd = .error "Date must be YYYY-MM-DD"
  | [], i, nd, d, hex, _, _ => by simp at hex
  | p :: rest, i, nd, d, hex, hd, hbad => by
    by_cases hid : p.id = i
    · simp [updateLoop, hid, hd, hbad]
    · have hex2 : ∃ q ∈ rest, q.id = i := by
        rcases hex with ⟨q, hq, hqi⟩
        rcases List.mem_cons.mp hq with rfl | hq2
        · exact absurd hqi hid
        · exact ⟨q, hq2, hqi⟩
      simp [updateLoop, hid, updateLoop_invalid_date rest i nd d hex2 hd hbad]

theorem updateLoop_found_none : ∀ (pre : List Post) (p : Post) (suf : List Post)
    (i : Int) (nd : RawPost), (∀ q ∈ pre, q.id ≠ i) → p.id = i → nd.date = none →
    updateLoop (pre ++ p :: suf) i nd = .ok (pre ++ updStr p nd :: suf, updStr p nd)
  | [], p, suf, i, nd, _, hp, hd => by simp [updateLoop, hp, hd, updStr]
  | q :: pre, p, suf, i, nd, hpre, hp, hd => by
    have hq : q.id ≠ i := hpre q (List.mem_cons_self q pre)
    have hrest := updateLoop_found_none pre p suf i nd
      (fun x hx => hpre x (List.mem_cons_of_mem q hx)) hp hd
    simp [updateLoop, hq, hrest]

theorem updateLoop_found_date_ok : ∀ (pre : List Post) (p : Post) (suf : List Post)
    (i : Int) (nd : RawPost) (d : String), (∀ q ∈ pre, q.id ≠ i) → p.id = i →
    nd.date = some d → (strptimeYmd (pyStrip d)).isSome = true →
    updateLoop (pre ++ p :: suf) i nd =
      .ok (pre ++ { updStr p nd with date := pyStrip d } :: suf,
        { updStr p nd with date := pyStrip d })
  | [], p, suf, i, nd, d, _, hp, hd, hok => by simp [updateLoop, hp, hd, hok, updStr]
  | q :: pre, p, suf, i, nd, d, hpre, hp, hd, hok => by
    have hq : q.id ≠ i := hpre q (List.mem_cons_self q pre)
    have hrest := updateLoop_found_date_ok pre p suf i nd d
      (fun x hx => hpre x (List.mem_cons_of_mem q hx)) hp hd hok
    simp [updateLoop, hq, hrest]

theorem removeFirstById_eq_none : ∀ (posts : List Post) (i : Int),
    removeFirstById posts i = none ↔ ∀ p ∈ posts, p.id ≠ i
  | [], i => by simp [removeFirstById]
  | p :: rest, i => by
    by_cases h : p.id = i
    · simp [removeFirstById, h]
    · simp [removeFirstById, h, removeFirstById_eq_none rest i]

theorem removeFirstById_sublist : ∀ (posts : List Post) (i : Int) (ps : List Post),
    removeFirstById posts i = some ps → ps.Sublist posts
  | [], _, _ => by simp [removeFirstById]
  | p :: rest, i, ps => by
    intro h
    by_cases hid : p.id = i
    · simp only [removeFirstById, if_pos hid, Option.some.injEq] at h
      subst h
      exact List.sublist_cons_self p rest
    · simp only [removeFirstById, if_neg hid] at h
      cases hrec : removeFirstById rest i with
      | none => rw [hrec] at h; simp at h
      | some ps2 =>
        rw [hrec] at h
        obtain rfl : p :: ps2 = ps := by simpa using h
        exact (removeFirstById_sublist rest i ps2 hrec).cons₂ p

theorem removeFirstById_nodup : ∀ (posts : List Post) (i : Int),
    (posts.map fun p => p.id).Nodup → (∃ p ∈ posts, p.id = i) →
    removeFirstById posts i = some (posts.filter fun q => !decide (q.id = i))
  | [], i, _, hex => by simp at hex
  | p :: rest, i, hnd, hex => by
    by_cases hid : p.id = i
    · have hnd' := hnd
      rw [List.map_cons, List.nodup_cons] at hnd'
      have hrest : ∀ q ∈ rest, q.id ≠ i := by
        intro q hq hqi
        exact hnd'.1 (by rw [hid, ← hqi]; exact List.mem_map_of_mem (fun x => x.id) hq)
      have hfix : rest.filter (fun q => !decide (q.id = i)) = rest :=
        List.filter_eq_self.mpr (fun q hq => by simp [hrest q hq])
      simp [removeFirstById, hid, List.filter_cons, hfix]
    · have hex2 : ∃ q ∈ rest, q.id = i := by
        rcases hex with ⟨q, hq, hqi⟩
        rcases List.mem_cons.mp hq with rfl | hq2
        · exact absurd hqi hid
        · exact ⟨q, hq2, hqi⟩
      have hnd2 : (rest.map fun p => p.id).Nodup := by
        have hnd' := hnd
        rw [List.map_cons, List.nodup_cons] at hnd'
        exact hnd'.2
      simp [removeFirstById, hid, List.filter_cons,
        removeFirstById_nodup rest i hnd2 hex2]

/-! ### Helper lemmas about `search_posts` -/

theorem conditions_all_eq (f : Filters) (p : Post)
    (h : (truthy f.title || truthy f.content || truthy f.author || truthy f.date) = true) :
    (!(postConditions f p).isEmpty && (postConditions f p).all id) =
      satisfiesAllFilters f p := by
  cases ht : truthy f.title <;> cases hc : truthy f.content <;>
    cases ha : truthy f.author <;> cases hd : truthy f.date <;>
    simp_all [postConditions, satisfiesAllFilters, Bool.and_assoc]

theorem truthy_dropEmpty (o : Option String) : truthy (dropEmpty o) = truthy o := by
  by_cases h : truthy o = true
  · simp [dropEmpty, h]
  · rw [Bool.not_eq_true] at h
    rw [dropEmpty, h]
    rfl

theorem dropEmpty_of_truthy {o : Option String} (h : truthy o = true) :
    dropEmpty o = o := by
  simp [dropEmpty, h]

theorem postConditions_dropEmpty (f : Filters) (p : Post) :
    postConditions (dropEmptyFilters f) p = postConditions f p := by
  obtain ⟨t, c, a, d⟩ := f
  cases ht : truthy t <;> cases hc : truthy c <;> cases ha : truthy a <;>
    cases hd : truthy d <;>
    simp_all [postConditions, dropEmptyFilters, truthy_dropEmpty,
      dropEmpty_of_truthy]

theorem truthy_eq_false_of_getD {o : Option String} (h : o.getD "" = "") :
    truthy o = false := by
  cases o with
  | none => rfl
  | some s =>
    simp only [Option.getD_some] at h
    subst h
    rfl

/-! ### Claim theorems -/

/-- C1: a create request whose title, content, author and date are
non-empty after trimming and whose date is a real `YYYY-MM-DD` calendar
date appends exactly one post whose string fields are the trimmed inputs
and whose id is `max(existing ids, default 0) + 1`; the appended
collection is what gets persisted. -/
theorem claim_add_post_valid (posts : List Post) (r : RawPost)
    (ht : pyStrip (r.title.getD "") ≠ "")
    (hc : pyStrip (r.content.getD "") ≠ "")
    (ha : pyStrip (r.author.getD "") ≠ "")
    (hd : isStrictYMD (pyStrip (r.date.getD "")) = true) :
    add_post posts (some r) =
      .ok (posts ++ [madePost posts r], madePost posts r) ∧
    postsAfterAdd posts (some r) = posts ++ [madePost posts r] := by
  have hd1 : (strptimeYmd (pyStrip (r.date.getD ""))).isSome = true :=
    isStrictYMD_strptime hd
  have hd2 : pyStrip (r.date.getD "") ≠ "" := isStrictYMD_ne_empty hd
  have h1 : add_post posts (some r) =
      .ok (posts ++ [madePost posts r], madePost posts r) := by
    simp [add_post, ht, hc, ha, hd2, hd1, madePost]
  exact ⟨h1, by simp [postsAfterAdd, h1]⟩

theorem claim_add_post_valid_witness :
    pyStrip "  Hello " ≠ "" ∧ isStrictYMD (pyStrip " 2023-05-17 ") = true ∧
    add_post [⟨1, "a", "b", "c", "2020-01-01"⟩]
        (some ⟨some "  Hello ", some "World", some "Me", some " 2023-05-17 "⟩) =
      .ok ([⟨1, "a", "b", "c", "2020-01-01"⟩,
            ⟨2, "Hello", "World", "Me", "2023-05-17"⟩],
        ⟨2, "Hello", "World", "Me", "2023-05-17"⟩) :=
  ⟨by decide, by decide, by
    have h := claim_add_post_valid [⟨1, "a", "b", "c", "2020-01-01"⟩]
      ⟨some "  Hello ", some "World", some "Me", some " 2023-05-17 "⟩
      (by decide) (by decide) (by decide) (by decide)
    exact h.1.trans (by decide)⟩

/-- C2: with at least one genuinely supplied (non-empty) filter, a post is
returned iff it satisfies every such filter — case-insensitive substring
containment for title/content/author, exact string equality for date —
and the result keeps the collection order (it is a `filter` of it). -/
theorem claim_search_conjunctive (posts : List Post) (f : Filters)
    (h : (truthy f.title || truthy f.content || truthy f.author || truthy f.date) = true) :
    search_posts posts f = posts.filter (satisfiesAllFilters f) ∧
    ∀ p : Post, p ∈ search_posts posts f ↔
      p ∈ posts ∧ satisfiesAllFilters f p = true := by
  have hmain : search_posts posts f = posts.filter (satisfiesAllFilters f) := by
    simp only [search_posts, h, Bool.not_true, Bool.false_eq_true, if_false]
    exact List.filter_congr (fun p _ => conditions_all_eq f p h)
  refine ⟨hmain, fun p => ?_⟩
  rw [hmain, List.mem_filter]

theorem claim_search_conjunctive_witness :
    (truthy (some "ana") || truthy none || truthy none || truthy none) = true ∧
    search_posts
        [⟨1, "Banana Bread", "c", "a", "2020-01-01"⟩,
         ⟨2, "Apple Pie", "c", "a", "2020-01-01"⟩]
        ⟨some "ana", none, none, none⟩ =
      [⟨1, "Banana Bread", "c", "a", "2020-01-01"⟩] :=
  ⟨by decide, by
    have h := claim_search_conjunctive
      [⟨1, "Banana Bread", "c", "a", "2020-01-01"⟩,
       ⟨2, "Apple Pie", "c", "a", "2020-01-01"⟩]
      ⟨some "ana", none, none, none⟩ (by decide)
    exact h.1.trans (by decide)⟩

/-- C3 counterexample: an update whose supplied title is whitespace-only
(empty after trimming) is not rejected and not trimmed; the code stores
the raw value `"   "` verbatim and returns 200. -/
theorem claim_update_trim_counterexample :
    update_post [⟨1, "t", "c", "a", "2020-01-01"⟩] 1
        (some ⟨some "   ", none, none, none⟩) =
      .ok ([⟨1, "   ", "c", "a", "2020-01-01"⟩],
        ⟨1, "   ", "c", "a", "2020-01-01"⟩) := by decide

/-- C3 (amended): on update, supplied title/content/author values are
applied verbatim — no trimming, no emptiness check; only a supplied date
is trimmed and validated, an invalid one rejecting the update; absent
fields are left untouched on the existing post. -/
theorem claim_update_partial_apply (pre suf : List Post) (p : Post) (i : Int)
    (nd : RawPost) (hpre : ∀ q ∈ pre, q.id ≠ i) (hp : p.id = i) :
    (nd.date = none →
      update_post (pre ++ p :: suf) i (some nd) =
        .ok (pre ++ updStr p nd :: suf, updStr p nd)) ∧
    (∀ d, nd.date = some d → (strptimeYmd (pyStrip d)).isSome = true →
      update_post (pre ++ p :: suf) i (some nd) =
        .ok (pre ++ { updStr p nd with date := pyStrip d } :: suf,
          { updStr p nd with date := pyStrip d })) ∧
    (∀ d, nd.date = some d → (strptimeYmd (pyStrip d)).isSome = false →
      update_post (pre ++ p :: suf) i (some nd) =
        .error "Date must be YYYY-MM-DD") := by
  refine ⟨fun hd => ?_, fun d hd hok => ?_, fun d hd hbad => ?_⟩
  · simpa [update_post] using updateLoop_found_none pre p suf i nd hpre hp hd
  · simpa [update_post] using
      updateLoop_found_date_ok pre p suf i nd d hpre hp hd hok
  · have hex : ∃ q ∈ pre ++ p :: suf, q.id = i := ⟨p, by simp, hp⟩
    simpa [update_post] using
      updateLoop_invalid_date (pre ++ p :: suf) i nd d hex hd hbad

theorem claim_update_partial_apply_witness :
    update_post [⟨1, "t", "c", "a", "2020-01-01"⟩] 1
        (some ⟨none, some "NewC", none, none⟩) =
      .ok ([⟨1, "t", "NewC", "a", "2020-01-01"⟩],
        ⟨1, "t", "NewC", "a", "2020-01-01"⟩) := by
  have h := (claim_update_partial_apply [] [] ⟨1, "t", "c", "a", "2020-01-01"⟩ 1
    ⟨none, some "NewC", none, none⟩ (by simp) rfl).1 rfl
  exact h.trans (by decide)

/-- C4: an update of an existing post with a date that does not parse as
`YYYY-MM-DD` fails with the validation error, and nothing is persisted:
the stored collection is exactly the one loaded. -/
theorem claim_update_invalid_date (posts : List Post) (i : Int)
    (nd : RawPost) (d : String) (hex : ∃ p ∈ posts, p.id = i)
    (hd : nd.date = some d) (hbad : (strptimeYmd (pyStrip d)).isSome = false) :
    update_post posts i (some nd) = .error "Date must be YYYY-MM-DD" ∧
    postsAfterUpdate posts i (some nd) = posts := by
  have h := updateLoop_invalid_date posts i nd d hex hd hbad
  have h1 : update_post posts i (some nd) = .error "Date must be YYYY-MM-DD" := by
    simpa [update_post] using h
  exact ⟨h1, by simp [postsAfterUpdate, h1]⟩

theorem claim_update_invalid_date_witness :
    (∃ p ∈ [(⟨1, "t", "c", "a", "2020-01-01"⟩ : Post)], p.id = 1) ∧
    update_post [⟨1, "t", "c", "a", "2020-01-01"⟩] 1
        (some ⟨some "X", some "Y", some "Z", some "2020-13-01"⟩) =
      .error "Date must be YYYY-MM-DD" ∧
    postsAfterUpdate [⟨1, "t", "c", "a", "2020-01-01"⟩] 1
        (some ⟨some "X", some "Y", some "Z", some "2020-13-01"⟩) =
      [⟨1, "t", "c", "a", "2020-01-01"⟩] := by
  have h := claim_update_invalid_date [⟨1, "t", "c", "a", "2020-01-01"⟩] 1
    ⟨some "X", some "Y", some "Z", some "2020-13-01"⟩ "2020-13-01"
    (by decide) rfl (by decide)
  exact ⟨by decide, h.1, h.2⟩

/-- C5: sorting by a string field (`title`, `content`, `author`) sorts by
the lowercased field value (the ascending result is sorted under `lexLe`
of `sortKeyStr`, the descending one under its reverse), is stable in both
directions (posts with any fixed key keep their stored relative order),
and the descending key sequence is the reverse of the ascending one. -/
theorem claim_sort_string_fields (posts : List Post) (f : String)
    (hf : f = "title" ∨ f = "content" ∨ f = "author") :
    ∃ A D : List Post,
      get_posts posts (some f) (some "asc") = .ok A ∧
      get_posts posts (some f) (some "desc") = .ok D ∧
      List.Sorted (fun p q => lexLe (sortKeyStr f p) (sortKeyStr f q) = true) A ∧
      List.Sorted (fun p q => lexLe (sortKeyStr f q) (sortKeyStr f p) = true) D ∧
      (∀ s : List Char, A.filter (fun p => decide (sortKeyStr f p = s)) =
        posts.filter (fun p => decide (sortKeyStr f p = s))) ∧
      (∀ s : List Char, D.filter (fun p => decide (sortKeyStr f p = s)) =
        posts.filter (fun p => decide (sortKeyStr f p = s))) ∧
      D.map (sortKeyStr f) = (A.map (sortKeyStr f)).reverse := by
  refine ⟨pySorted lexLe (sortKeyStr f) false posts,
    pySorted lexLe (sortKeyStr f) true posts, ?_, ?_,
    sorted_pySorted_asc _ posts, sorted_pySorted_desc _ posts,
    fun s => stable_pySorted_asc _ s posts,
    fun s => stable_pySorted_desc _ s posts,
    pySorted_desc_map_eq_reverse _ posts⟩
  · rcases hf with rfl | rfl | rfl <;> rfl
  · rcases hf with rfl | rfl | rfl <;> rfl

theorem claim_sort_string_fields_witness :
    (("title" : String) = "title" ∨ ("title" : String) = "content" ∨
      ("title" : String) = "author") ∧
    get_posts
        [⟨1, "banana", "x", "aa", "2023-01-02"⟩,
         ⟨2, "Apple", "y", "bb", "2023-01-01"⟩,
         ⟨3, "cherry", "z", "cc", "2023-01-03"⟩]
        (some "title") (some "asc") =
      .ok [⟨2, "Apple", "y", "bb", "2023-01-01"⟩,
           ⟨1, "banana", "x", "aa", "2023-01-02"⟩,
           ⟨3, "cherry", "z", "cc", "2023-01-03"⟩] ∧
    get_posts
        [⟨1, "banana", "x", "aa", "2023-01-02"⟩,
         ⟨2, "Apple", "y", "bb", "2023-01-01"⟩,
         ⟨3, "cherry", "z", "cc", "2023-01-03"⟩]
        (some "title") (some "desc") =
      .ok [⟨3, "cherry", "z", "cc", "2023-01-03"⟩,
           ⟨1, "banana", "x", "aa", "2023-01-02"⟩,
           ⟨2, "Apple", "y", "bb", "2023-01-01"⟩] ∧
    (∃ A D : List Post,
      get_posts
          [⟨1, "banana", "x", "aa", "2023-01-02"⟩,
           ⟨2, "Apple", "y", "bb", "2023-01-01"⟩,
           ⟨3, "cherry", "z", "cc", "2023-01-03"⟩]
          (some "title") (some "asc") = .ok A ∧
      get_posts
          [⟨1, "banana", "x", "aa", "2023-01-02"⟩,
           ⟨2, "Apple", "y", "bb", "2023-01-01"⟩,
           ⟨3, "cherry", "z", "cc", "2023-01-03"⟩]
          (some "title") (some "desc") = .ok D ∧
      List.Sorted (fun p q =>
        lexLe (sortKeyStr "title" p) (sortKeyStr "title" q) = true) A ∧
      List.Sorted (fun p q =>
        lexLe (sortKeyStr "title" q) (sortKeyStr "title" p) = true) D ∧
      (∀ s : List Char, A.filter (fun p => decide (sortKeyStr "title" p = s)) =
        [⟨1, "banana", "x", "aa", "2023-01-02"⟩,
         ⟨2, "Apple", "y", "bb", "2023-01-01"⟩,
         ⟨3, "cherry", "z", "cc", "2023-01-03"⟩].filter
          (fun p => decide (sortKeyStr "title" p = s))) ∧
      (∀ s : List Char, D.filter (fun p => decide (sortKeyStr "title" p = s)) =
        [⟨1, "banana", "x", "aa", "2023-01-02"⟩,
         ⟨2, "Apple", "y", "bb", "2023-01-01"⟩,
         ⟨3, "cherry", "z", "cc", "2023-01-03"⟩].filter
          (fun p => decide (sortKeyStr "title" p = s))) ∧
      D.map (sortKeyStr "title") = (A.map (sortKeyStr "title")).reverse) :=
  ⟨Or.inl rfl, by decide, by decide,
    claim_sort_string_fields
      [⟨1, "banana", "x", "aa", "2023-01-02"⟩,
       ⟨2, "Apple", "y", "bb", "2023-01-01"⟩,
       ⟨3, "cherry", "z", "cc", "2023-01-03"⟩] "title" (Or.inl rfl)⟩

/-- C6 counterexample: with `sort` omitted and `direction=sideways`, the
code returns the posts with status 200 instead of the InvalidDirection
error the claim requires for every request. -/
theorem claim_list_validation_counterexample :
    get_posts [] none (some "sideways") = .ok [] := by decide

/-- C6 (amended): when a sort field is supplied, a field outside
{title, content, author, date} yields the invalid-sort error and an
in-range field with a direction outside {asc, desc} yields the
invalid-direction error, `direction` defaulting to `asc` when omitted;
but when `sort` is omitted the direction value is never validated and the
posts are returned as stored. -/
theorem claim_list_validation (posts : List Post) (s : String) (d : Option String) :
    (s ∉ (["title", "content", "author", "date"] : List String) →
      get_posts posts (some s) d = .error "Invalid sort request.") ∧
    (s ∈ (["title", "content", "author", "date"] : List String) →
      d.getD "asc" ∉ (["asc", "desc"] : List String) →
      get_posts posts (some s) d = .error "Invalid direction.") ∧
    get_posts posts (some s) none = get_posts posts (some s) (some "asc") ∧
    get_posts posts none d = .ok posts := by
  refine ⟨fun h => ?_, fun h1 h2 => ?_, rfl, rfl⟩
  · simp [get_posts, h]
  · simp [get_posts, h1, h2]

theorem claim_list_validation_witness :
    get_posts [] (some "bogus") none = .error "Invalid sort request." ∧
    get_posts [] (some "title") (some "sideways") = .error "Invalid direction." :=
  ⟨(claim_list_validation [] "bogus" none).1 (by decide),
   (claim_list_validation [] "title" (some "sideways")).2.1 (by decide) (by decide)⟩

/-- C7: over a collection with pairwise distinct ids, deleting an existing
id removes exactly that post (the persisted list is the stored one with
the post of that id filtered out, so the id is gone afterwards) and the
confirmation names the id; deleting an absent id yields the not-found
error and leaves the collection unchanged. -/
theorem claim_delete_post (posts : List Post) (i : Int)
    (hnd : (posts.map fun p => p.id).Nodup) :
    ((∃ p ∈ posts, p.id = i) →
      delete_post posts i =
        .ok (posts.filter fun q => !decide (q.id = i), deleteMsg i) ∧
      i ∉ ((postsAfterDelete posts i).map fun p => p.id)) ∧
    ((¬ ∃ p ∈ posts, p.id = i) →
      delete_post posts i = .error "Post Not Found" ∧
      postsAfterDelete posts i = posts) := by
  constructor
  · intro hex
    have hrm := removeFirstById_nodup posts i hnd hex
    have hdel : delete_post posts i =
        .ok (posts.filter fun q => !decide (q.id = i), deleteMsg i) := by
      simp [delete_post, hrm]
    refine ⟨hdel, ?_⟩
    intro hmem
    have hpd : postsAfterDelete posts i = posts.filter fun q => !decide (q.id = i) := by
      simp [postsAfterDelete, hdel]
    rw [hpd] at hmem
    rcases List.mem_map.mp hmem with ⟨q, hq, hqi⟩
    have h2 := (List.mem_filter.mp hq).2
    simp only [Bool.not_eq_true', decide_eq_false_iff_not] at h2
    exact h2 hqi
  · intro hne
    have hnone : removeFirstById posts i = none :=
      (removeFirstById_eq_none posts i).mpr (fun p hp hpi => hne ⟨p, hp, hpi⟩)
    exact ⟨by simp [delete_post, hnone],
      by simp [postsAfterDelete, delete_post, hnone]⟩

theorem claim_delete_post_witness :
    delete_post [⟨1, "t", "c", "a", "d"⟩, ⟨2, "u", "v", "w", "x"⟩] 1 =
      .ok ([⟨2, "u", "v", "w", "x"⟩], deleteMsg 1) ∧
    delete_post [⟨2, "u", "v", "w", "x"⟩] 5 = .error "Post Not Found" := by
  constructor
  · have h := ((claim_delete_post [⟨1, "t", "c", "a", "d"⟩, ⟨2, "u", "v", "w", "x"⟩]
      1 (by decide)).1 (by decide)).1
    exact h.trans (by decide)
  · exact ((claim_delete_post [⟨2, "u", "v", "w", "x"⟩] 5 (by decide)).2
      (by decide)).1

theorem add_post_ok (posts : List Post) (r : RawPost) (ps : List Post) (q : Post)
    (h : add_post posts (some r) = .ok (ps, q)) :
    ps = posts ++ [q] ∧ q.id = ((posts.map fun p => p.id).max?.getD 0) + 1 := by
  simp only [add_post] at h
  split at h
  · simp at h
  · split at h
    · simp at h
    · split at h
      · simp at h
      · split at h
        · simp at h
        · split at h
          · simp only [Except.ok.injEq, Prod.mk.injEq] at h
            refine ⟨by rw [← h.1, ← h.2], by rw [← h.2]⟩
          · simp at h

/-- C8: starting from a collection with pairwise distinct ids, the
persisted collection after any single create, update or delete still has
pairwise distinct ids, and no existing post's id changes: create leaves
the id sequence unchanged or appends `max + 1`, update leaves it exactly
unchanged, and delete leaves a subsequence of it. -/
theorem claim_id_invariants (posts : List Post)
    (hnd : (posts.map fun p => p.id).Nodup) (body : Option RawPost) (i : Int)
    (ub : Option RawPost) :
    (((postsAfterAdd posts body).map fun p => p.id).Nodup ∧
      ((postsAfterAdd posts body).map (fun p => p.id) = posts.map (fun p => p.id) ∨
        (postsAfterAdd posts body).map (fun p => p.id) =
          posts.map (fun p => p.id) ++
            [((posts.map fun p => p.id).max?.getD 0) + 1])) ∧
    (((postsAfterUpdate posts i ub).map fun p => p.id).Nodup ∧
      (postsAfterUpdate posts i ub).map (fun p => p.id) =
        posts.map fun p => p.id) ∧
    (((postsAfterDelete posts i).map fun p => p.id).Nodup ∧
      ((postsAfterDelete posts i).map fun p => p.id).Sublist
        (posts.map fun p => p.id)) := by
  refine ⟨?_, ?_, ?_⟩
  · cases hres : add_post posts body with
    | error e =>
      have hpa : postsAfterAdd posts body = posts := by
        simp [postsAfterAdd, hres]
      rw [hpa]
      exact ⟨hnd, Or.inl rfl⟩
    | ok pr =>
      cases body with
      | none => simp [add_post] at hres
      | some r =>
        have h2 := add_post_ok posts r pr.1 pr.2 (by rw [hres])
        have hpa : postsAfterAdd posts (some r) = pr.1 := by
          simp [postsAfterAdd, hres]
        have hnotin : pr.2.id ∉ posts.map fun p => p.id := by
          intro hmem
          have hle := mem_le_max?_getD (posts.map fun p => p.id) _ hmem
          rw [h2.2] at hle
          omega
        rw [hpa, h2.1]
        constructor
        · rw [List.map_append, List.nodup_append_comm]
          exact List.nodup_cons.mpr ⟨hnotin, hnd⟩
        · right
          simp [h2.2]
  · cases hres : update_post posts i ub with
    | error e =>
      have hpa : postsAfterUpdate posts i ub = posts := by
        simp [postsAfterUpdate, hres]
      rw [hpa]
      exact ⟨hnd, rfl⟩
    | ok pr =>
      have hids := updateLoop_ids posts i (ub.getD ⟨none, none, none, none⟩)
        pr.1 pr.2 (by simpa [update_post] using hres)
      have hpa : postsAfterUpdate posts i ub = pr.1 := by
        simp [postsAfterUpdate, hres]
      rw [hpa]
      exact ⟨hids ▸ hnd, hids⟩
  · cases hres : delete_post posts i with
    | error e =>
      have hpa : postsAfterDelete posts i = posts := by
        simp [postsAfterDelete, hres]
      rw [hpa]
      exact ⟨hnd, List.Sublist.refl _⟩
    | ok pr =>
      have hrm : removeFirstById posts i = some pr.1 := by
        simp only [delete_post] at hres
        cases hrm2 : removeFirstById posts i with
        | none => rw [hrm2] at hres; simp at hres
        | some ps2 =>
          rw [hrm2] at hres
          simp only [Except.ok.injEq] at hres
          rw [← hres]
      have hsub := (removeFirstById_sublist posts i pr.1 hrm).map fun p => p.id
      have hpa : postsAfterDelete posts i = pr.1 := by
        simp [postsAfterDelete, delete_post, hrm]
      rw [hpa]
      exact ⟨List.Nodup.sublist hsub hnd, hsub⟩

theorem claim_id_invariants_witness :
    ((postsAfterAdd ([⟨1, "t", "c", "a", "2020-01-01"⟩] : List Post)
        (some ⟨some "T", some "C", some "A", some "2023-05-17"⟩)).map
      fun p => p.id).Nodup ∧
    (postsAfterUpdate [⟨1, "t", "c", "a", "2020-01-01"⟩] 1
        (some ⟨some "New", none, none, none⟩)).map (fun p => p.id) =
      ([⟨1, "t", "c", "a", "2020-01-01"⟩] : List Post).map (fun p => p.id) ∧
    ((postsAfterDelete [(⟨1, "t", "c", "a", "2020-01-01"⟩ : Post)] 1).map
      fun p => p.id).Sublist
        ([(⟨1, "t", "c", "a", "2020-01-01"⟩ : Post)].map fun p => p.id) := by
  have h := claim_id_invariants [⟨1, "t", "c", "a", "2020-01-01"⟩] (by decide)
    (some ⟨some "T", some "C", some "A", some "2023-05-17"⟩) 1
    (some ⟨some "New", none, none, none⟩)
  exact ⟨h.1.1, h.2.1.2, h.2.2.2⟩

/-- C9: a search request supplying no filters at all returns the empty
list, whatever the collection holds. -/
theorem claim_search_no_filters (posts : List Post) :
    search_posts posts ⟨none, none, none, none⟩ = [] := rfl

/-- C10: a filter supplied as the empty string behaves exactly as an
absent one (replacing every empty-string filter by an absent filter does
not change the result), and a request in which every supplied filter is
the empty string returns the empty list even over a non-empty
collection. -/
theorem claim_search_empty_filters (posts : List Post) (f : Filters) :
    search_posts posts (dropEmptyFilters f) = search_posts posts f ∧
    (f.title.getD "" = "" → f.content.getD "" = "" → f.author.getD "" = "" →
      f.date.getD "" = "" → search_posts posts f = []) := by
  constructor
  · simp only [search_posts, postConditions_dropEmpty]
    simp only [dropEmptyFilters, truthy_dropEmpty]
  · intro h1 h2 h3 h4
    simp [search_posts, truthy_eq_false_of_getD h1, truthy_eq_false_of_getD h2,
      truthy_eq_false_of_getD h3, truthy_eq_false_of_getD h4]

theorem claim_search_empty_filters_witness :
    search_posts [⟨1, "t", "c", "a", "2020-01-01"⟩]
      ⟨some "", none, some "", none⟩ = [] :=
  (claim_search_empty_filters [⟨1, "t", "c", "a", "2020-01-01"⟩]
    ⟨some "", none, some "", none⟩).2 rfl rfl rfl rfl
